import Mathlib

/-!
Shallow embedding of the shiftte roster-extraction pipeline
(`src/app/services/extract.py` and `src/app/services/transform.py`).

Tables are modelled as a header (list of column labels) plus a list of rows
(lists of string cells); pandas DataFrames in the source carry exactly this
data for the code under study.  Python exceptions are modelled by the
`PyError` type, fallible functions return `Except PyError`.

Character-class caveats (noted where relevant): Python's `str.strip`, the
regex classes `\s` and `\d`, and `strptime` accept some exotic Unicode
characters beyond the sets modelled here; the modelled sets (ASCII
whitespace, form/vertical feeds, U+3000 ideographic space; ASCII digits)
cover every character class the repository's data and the claims exercise.
-/

namespace Shiftte

/-- Characters removed by Python `str.strip()` (the whitespace characters
occurring in this development: ASCII whitespace plus U+3000). -/
def isPySpace (c : Char) : Bool :=
  c == ' ' || c == '\t' || c == '\n' || c == '\r' || c == '\x0b' || c == '\x0c' || c == '　'

/-- Drop the maximal run of whitespace at the end of a character list. -/
def stripEnd (l : List Char) : List Char :=
  (l.reverse.dropWhile isPySpace).reverse

/-- Python `str.strip()` on a character list: drop leading and trailing whitespace. -/
def pyStripList (l : List Char) : List Char :=
  stripEnd (l.dropWhile isPySpace)

/-- Python `str.strip()`. -/
def pyStrip (s : String) : String :=
  String.mk (pyStripList s.toList)

/-- Python `needle in hay` for strings: substring containment. -/
def strContains (hay needle : String) : Bool :=
  let h := hay.toList
  let n := needle.toList
  (List.range (h.length + 1)).any (fun i => (h.drop i).take n.length == n)

/-- Split a character list on a separator character, keeping empty pieces —
the behavior of Python `str.split(sep)` and of `String.split` on the
singleton predicate. -/
def splitOnChar (sep : Char) : List Char → List (List Char)
  | [] => [[]]
  | c :: cs =>
    if c = sep then [] :: splitOnChar sep cs
    else
      match splitOnChar sep cs with
      | [] => [[c]]
      | h :: t => (c :: h) :: t

/-- A list of 1-2 ASCII digit characters.  Models the regex fragment
`\d{1,2}` and the `strptime` field directives `%m`/`%d`/`%H`/`%M`
(Python `\d` also accepts non-ASCII decimal digits, not exercised here). -/
def isShortDigits (l : List Char) : Bool :=
  !l.isEmpty && l.length ≤ 2 && l.all (·.isDigit)

/-- Numeric value of an ASCII digit string. -/
def natOfDigits (l : List Char) : Nat :=
  l.foldl (fun a c => a * 10 + (c.toNat - 48)) 0

/-- `_looks_like_md` from `extract.py`: does the string match
`^\s*(\d{1,2})/(\d{1,2})\s*$`? -/
def looksLikeMD (s : String) : Bool :=
  match splitOnChar '/' (pyStripList s.toList) with
  | [a, b] => isShortDigits a && isShortDigits b
  | _ => false

/-- Python exceptions raised by the embedded code. -/
inductive PyError where
  | valueError (msg : String)
  | indexError (msg : String)
deriving DecidableEq, Repr

/-- The Python exception class name of an error — what a caller catching by
exception type can distinguish. -/
def PyError.kind : PyError → String
  | .valueError _ => "ValueError"
  | .indexError _ => "IndexError"

/-- A pandas DataFrame as used by this pipeline: column labels plus rows of
string cells. -/
structure Table where
  cols : List String
  rows : List (List String)
deriving DecidableEq, Repr

/-- Number of columns, `df.shape[1]` (defined by the header alone, so a
zero-row table still has its column count). -/
def Table.ncols (t : Table) : Nat :=
  t.cols.length

/-- Index of the first column with the given label, if any. -/
def colIndex : List String → String → Option Nat
  | [], _ => none
  | c' :: cs, c => if c' = c then some 0 else (colIndex cs c).map (· + 1)

/-- Cell of a row under a column label, with `""` as the missing default
(models `row.get(c, "")` / label-based lookup for the distinct labels used
throughout the pipeline). -/
def getCell (cols row : List String) (c : String) : String :=
  match colIndex cols c with
  | some i => row.getD i ""
  | none => ""

/-! ## Table Locator (`extract.py`: `read_pdf_table`, `_try_pdfplumber_fallback`) -/

/-- The selection rule `max(dfs, key=lambda d: d.shape[1])`: Python `max`
keeps the first element among those with maximal key. -/
def pickWidest (dfs : List Table) : Option Table :=
  match dfs with
  | [] => none
  | d :: ds => some (ds.foldl (fun best t => if best.ncols < t.ncols then t else best) d)

/-- `_try_pdfplumber_fallback`, given the candidate DataFrames `tables_data`
it built from the pdfplumber backend output (an external library call):
pick the one with the most columns, or `none` when there are none. -/
def try_pdfplumber_fallback (tables_data : List Table) : Option Table :=
  pickWidest tables_data

/-- The aggregate candidate list of `read_pdf_table`.  The arguments are the
tables produced by the external extraction calls, in trial order: tabula
lattice mode, tabula stream mode, the permissive `guess=False` retry, the
whole-page retry, and the pdfplumber fallback's candidate DataFrames.
Each later stage is consulted only when all earlier ones produced nothing. -/
def candidate_list (lat strm perm whole fb : List Table) : List Table :=
  let dfs := lat ++ strm
  let dfs := if dfs.isEmpty then perm else dfs
  let dfs := if dfs.isEmpty then whole else dfs
  if dfs.isEmpty then
    match try_pdfplumber_fallback fb with
    | some d => [d]
    | none => []
  else dfs

/-- Header normalization in `read_pdf_table`:
`[str(c).strip() if str(c).strip() else f"col_{i}" for i, c in enumerate(df.columns)]`. -/
def relabelAux (i : Nat) : List String → List String
  | [] => []
  | c :: cs =>
    (if pyStrip c = "" then "col_" ++ toString i else pyStrip c) :: relabelAux (i + 1) cs

/-- Header normalization of the selected table's column labels. -/
def relabelCols (cols : List String) : List String :=
  relabelAux 0 cols

/-- `read_pdf_table`: select the widest candidate, normalize its header,
raise `ValueError` when no strategy produced a table. -/
def read_pdf_table (lat strm perm whole fb : List Table) : Except PyError Table :=
  match pickWidest (candidate_list lat strm perm whole fb) with
  | none => .error (.valueError "表が検出できませんでした。PDFのフォーマットを確認してください。")
  | some df => .ok { cols := relabelCols df.cols, rows := df.rows }

/-! ## Table Normalizer (`extract.py`: `normalize_table`) -/

/-- The seven weekday glyphs, as 1-character strings (`set("月火水木金土日")`). -/
def weekdayStrs : List String :=
  ["月", "火", "水", "木", "金", "土", "日"]

/-- `is_week_row`: every non-empty stripped date-column cell is a single
weekday glyph. -/
def is_week_row (cols date_cols : List String) (row : List String) : Bool :=
  (date_cols.map (fun c => pyStrip (getCell cols row c))).all
    (fun v => v == "" || weekdayStrs.contains v)

/-- Step 1 of `normalize_table`: find the date columns, and when none exist
promote the first data row (`df.iloc[0]`, an `IndexError` on an empty frame)
to the header if any of its cells looks like a date. -/
def promoteHeader (t : Table) : Except PyError (Table × List String) :=
  if (t.cols.filter (fun c => looksLikeMD c)).isEmpty then
    match t.rows with
    | [] => .error (.indexError "single positional indexer is out-of-bounds")
    | first :: rest =>
      if first.any (fun v => looksLikeMD v) then
        .ok ({ cols := first.map pyStrip, rows := rest },
             (first.map pyStrip).filter (fun c => looksLikeMD c))
      else
        .ok (t, [])
  else
    .ok (t, t.cols.filter (fun c => looksLikeMD c))

/-- The name-indicating header substrings. -/
def nameHints : List String :=
  ["名前", "氏名", "スタッフ", "従業員"]

/-- The swap of the first two non-date columns
(`[nondates[1], nondates[0]] + nondates[2:]` when there are at least two). -/
def positionalCandidates (nondates : List String) : List String :=
  match nondates with
  | a :: b :: rest => b :: a :: rest
  | _ => nondates

/-- The prioritized person-name column candidates built from the non-date
columns: a column whose label contains a name hint is moved to the front,
otherwise the positional heuristic order stands. -/
def nameCandidates (nondates : List String) : List String :=
  match nondates.find? (fun c => nameHints.any (fun x => strContains c x)) with
  | some c => c :: (positionalCandidates nondates).filter (fun x => x ≠ c)
  | none => positionalCandidates nondates

/-- `normalize_table`: date-header detection (with first-row promotion),
weekday-row removal, person-name column selection and rename.  The empty
candidate case models the `nondates[0]` `IndexError` of
`name_col = candidates[0] if candidates else nondates[0]`. -/
def normalize_table (t : Table) : Except PyError (Table × List String) :=
  match promoteHeader t with
  | .error e => .error e
  | .ok (t1, date_cols) =>
    if date_cols.isEmpty then
      .error (.valueError "ヘッダに日付（M/D）が見つかりません。")
    else
      match nameCandidates (t1.cols.filter (fun c => !(date_cols.contains c))) with
      | [] => .error (.indexError "list index out of range")
      | name_col :: _ =>
        .ok ({ cols := t1.cols.map (fun c => if c = name_col then "スタッフ名" else c),
               rows := t1.rows.filter (fun r => !(is_week_row t1.cols date_cols r)) },
             date_cols)

/-! ## Row Selector (`extract.py`: `extract_person_row`) -/

/-- The `norm` helper: remove every ASCII space and ideographic space, then
strip remaining edge whitespace. -/
def norm (s : String) : String :=
  pyStrip (String.mk (s.toList.filter (fun c => !(c == ' ' || c == '　'))))

/-- Python regex metacharacters.  `pandas Series.str.contains` treats its
needle as a regular expression; for needles free of these characters it is
plain substring containment, which is what `extract_person_row` models. -/
def hasRegexMeta (s : String) : Bool :=
  s.toList.any (fun c =>
    ['.', '^', '$', '*', '+', '?', '\x7b', '\x7d', '[', ']', '\\', '|', '(', ')'].contains c)

/-- `extract_person_row`: exact normalized-name match first, substring
containment as fallback, first matching row wins.  Returns the selected row
(the source returns it as a one-row DataFrame) and passes `date_cols`
through. -/
def extract_person_row (t : Table) (date_cols : List String) (person : String) :
    Except PyError (List String × List String) :=
  if !(t.cols.contains "スタッフ名") then
    .error (.valueError "スタッフ名列を特定できませんでした。")
  else
    match
      (if (t.rows.filter (fun r => norm (getCell t.cols r "スタッフ名") = norm person)).isEmpty then
        t.rows.filter (fun r => strContains (norm (getCell t.cols r "スタッフ名")) (norm person))
      else
        t.rows.filter (fun r => norm (getCell t.cols r "スタッフ名") = norm person))
    with
    | [] => .error (.valueError ("指定の氏名が見つかりませんでした: " ++ person))
    | r :: _ => .ok (r, date_cols)

/-! ## Code Resolver (`transform.py`: `load_code_map`) -/

/-- One row of the code-mapping CSV.  `none` in `startv`/`endv` models a
missing (NaN) cell; the source reads the columns `code`, `start`, `end`. -/
structure CsvRow where
  code : String
  startv : Option String
  endv : Option String
deriving DecidableEq, Repr

/-- `str(r[col]) if not pd.isna(r[col]) else ""`. -/
def csvVal : Option String → String
  | none => ""
  | some s => s

/-- First-match lookup in an association list; on the maps built by
`load_code_map` (unique keys) this is Python dict lookup. -/
def mlookup {α : Type} : List (String × α) → String → Option α
  | [], _ => none
  | (k, v) :: m, q => if q = k then some v else mlookup m q

/-- Python `m[k] = v` on a dict rendered as an association list: replace the
binding in place when the key exists, append otherwise. -/
def dictInsert {α : Type} (m : List (String × α)) (k : String) (v : α) : List (String × α) :=
  if m.any (fun p => p.1 = k) then
    m.map (fun p => if p.1 = k then (k, v) else p)
  else
    m ++ [(k, v)]

/-- `load_code_map`: fold the CSV rows into a dict, stripping the code and
replacing missing start/end values by the empty string. -/
def load_code_map (rows : List CsvRow) : List (String × String × String) :=
  rows.foldl (fun m r => dictInsert m (pyStrip r.code) (csvVal r.startv, csvVal r.endv)) []

/-- The source row whose binding survives in the dict under key `k`: the
last row whose stripped code equals `k`. -/
def lastBinding (rows : List CsvRow) (k : String) : Option CsvRow :=
  match rows with
  | [] => none
  | r :: rest =>
    match lastBinding rest k with
    | some r' => some r'
    | none => if pyStrip r.code = k then some r else none

/-! ## Event Builder (`transform.py`: `to_events`) -/

/-- A calendar date as carried by `datetime.date`. -/
structure SDate where
  year : Nat
  month : Nat
  day : Nat
deriving DecidableEq, Repr

/-- Leap-year rule of the proleptic Gregorian calendar used by `datetime`. -/
def isLeap (y : Nat) : Bool :=
  y % 4 == 0 && (y % 100 != 0 || y % 400 == 0)

/-- Length of a month. -/
def daysInMonth (y m : Nat) : Nat :=
  if m = 2 then (if isLeap y then 29 else 28)
  else if m = 4 || m = 6 || m = 9 || m = 11 then 30
  else 31

/-- `base + timedelta(days=1)`. -/
def nextDay (d : SDate) : SDate :=
  if d.day < daysInMonth d.year d.month then
    { d with day := d.day + 1 }
  else if d.month < 12 then
    { year := d.year, month := d.month + 1, day := 1 }
  else
    { year := d.year + 1, month := 1, day := 1 }

/-- `datetime.strptime(f"{year}/{md}", "%Y/%m/%d")`: month and day are 1-2
digit fields validated against the real calendar; `datetime` accepts years
1..9999. -/
def parseMD (year : Nat) (md : String) : Option SDate :=
  match splitOnChar '/' md.toList with
  | [ms, ds] =>
    if isShortDigits ms && isShortDigits ds then
      if 1 ≤ year && year ≤ 9999 && 1 ≤ natOfDigits ms && natOfDigits ms ≤ 12 &&
          1 ≤ natOfDigits ds && natOfDigits ds ≤ daysInMonth year (natOfDigits ms) then
        some { year := year, month := natOfDigits ms, day := natOfDigits ds }
      else none
    else none
  | _ => none

/-- `datetime.strptime(hm, "%H:%M").time()`: 1-2 digit fields, hour 0..23,
minute 0..59. -/
def parseHM (s : String) : Option (Nat × Nat) :=
  match splitOnChar ':' s.toList with
  | [hs, ms] =>
    if isShortDigits hs && isShortDigits ms then
      if natOfDigits hs ≤ 23 && natOfDigits ms ≤ 59 then
        some (natOfDigits hs, natOfDigits ms)
      else none
    else none
  | _ => none

/-- A `datetime`: date plus time of day. -/
structure SDateTime where
  date : SDate
  hour : Nat
  minute : Nat
deriving DecidableEq, Repr

/-- `hm.endswith("+1")`. -/
def endsWithPlus1 (s : String) : Bool :=
  match s.toList.reverse with
  | '1' :: '+' :: _ => true
  | _ => false

/-- `hm[:-2]`: drop the last two characters. -/
def dropLast2 (s : String) : String :=
  String.mk s.toList.dropLast.dropLast

/-- The `parse_dt` closure of `to_events`: resolve the date label against
`year`, a `+1` suffix on the time means the following day.  `none` models
both a `ValueError` from `strptime` and the `OverflowError` when the `+1`
day leaves `datetime`'s year range. -/
def parse_dt (year : Nat) (md hm : String) : Option SDateTime :=
  match parseMD year md with
  | none => none
  | some base =>
    if endsWithPlus1 hm then
      match parseHM (dropLast2 hm) with
      | none => none
      | some t =>
        if base = { year := 9999, month := 12, day := 31 } then none
        else some { date := nextDay base, hour := t.1, minute := t.2 }
    else
      match parseHM hm with
      | none => none
      | some t => some { date := base, hour := t.1, minute := t.2 }

/-- Zero-pad to two digits (`strftime` `%H`/`%M`/`%m`/`%d`). -/
def pad2 (n : Nat) : String :=
  if n < 10 then "0" ++ toString n else toString n

/-- Zero-pad to four digits (`strftime` `%Y`). -/
def pad4 (n : Nat) : String :=
  if n < 10 then "000" ++ toString n
  else if n < 100 then "00" ++ toString n
  else if n < 1000 then "0" ++ toString n
  else toString n

/-- `strftime("%Y-%m-%d")`. -/
def fmtDate (d : SDate) : String :=
  pad4 d.year ++ "-" ++ pad2 d.month ++ "-" ++ pad2 d.day

/-- `strftime("%H:%M")`. -/
def fmtHM (h m : Nat) : String :=
  pad2 h ++ ":" ++ pad2 m

/-- Does `parseHM` round-trip with `fmtHM` on this string, i.e. is it a
canonical zero-padded `HH:MM` rendering? -/
def isCanonHM (s : String) : Bool :=
  match parseHM s with
  | some t => fmtHM t.1 t.2 == s
  | none => false

/-- One emitted calendar entry, with the exact dict fields of `to_events`
(`end_` for the Lean keyword `end`). -/
structure ShiftEvent where
  date : String
  start : String
  endv : String
  end_plus1 : Bool
  title : String
  code : String
deriving DecidableEq, Repr

/-- `to_events` loop state: events list and the `unknown` set (modelled as
its insertion-ordered list of distinct elements). -/
structure EvState where
  events : List ShiftEvent
  unknown : List String
deriving DecidableEq, Repr

/-- `set.add`: append when absent. -/
def insertNew (l : List String) (x : String) : List String :=
  if l.contains x then l else l ++ [x]

/-- The literal cell values treated as "no shift": `("", "nan", "None")`. -/
def skipForms : List String :=
  ["", "nan", "None"]

/-- The melt of the person row(s): for each date column (in order), pair its
label with the stripped cell value of each row
(`target_row.melt(...)` followed by `.str.strip()`). -/
def meltPairs (cols : List String) (rows : List (List String)) (date_cols : List String) :
    List (String × String) :=
  date_cols.flatMap (fun c => rows.map (fun r => (c, pyStrip (getCell cols r c))))

/-- The body of the `to_events` loop for one `(date-label, code)` pair. -/
def stepPair (cm : List (String × String × String)) (year : Nat) (st : EvState)
    (p : String × String) : Except PyError EvState :=
  if skipForms.contains p.2 then .ok st
  else
    match mlookup cm p.2 with
    | none => .ok { st with unknown := insertNew st.unknown p.2 }
    | some (s, e) =>
      if s = "" || e = "" then .ok st
      else
        match parse_dt year p.1 s, parse_dt year p.1 e with
        | some sdt, some edt =>
          .ok { st with events := st.events ++
            [{ date := fmtDate sdt.date,
               start := fmtHM sdt.hour sdt.minute,
               endv := fmtHM edt.hour edt.minute,
               end_plus1 := decide (¬ edt.date = sdt.date),
               title := p.2, code := p.2 }] }
        | _, _ => .error (.valueError "time data does not match format")

/-- The `to_events` loop over all pairs. -/
def runPairs (cm : List (String × String × String)) (year : Nat) (st : EvState) :
    List (String × String) → Except PyError EvState
  | [] => .ok st
  | p :: ps =>
    match stepPair cm year st p with
    | .ok st' => runPairs cm year st' ps
    | .error e => .error e

/-- The final sort key order `(e["date"], e["start"])` compared as Python
compares string tuples. -/
def evLE (a b : ShiftEvent) : Prop :=
  a.date < b.date ∨ (a.date = b.date ∧ a.start ≤ b.start)

instance : DecidableRel evLE := fun a b => by
  unfold evLE; exact inferInstance

/-- `to_events`: melt the row, process every pair, sort the events by
`(date, start)` and return the unknown codes as a sorted list. -/
def to_events (cols : List String) (rows : List (List String)) (date_cols : List String)
    (code_map : List (String × String × String)) (year : Nat) :
    Except PyError (List ShiftEvent × List String) :=
  match runPairs code_map year ⟨[], []⟩ (meltPairs cols rows date_cols) with
  | .error e => .error e
  | .ok st => .ok (List.insertionSort evLE st.events, List.insertionSort (· ≤ ·) st.unknown)

/-! ## General lemmas -/

theorem dropWhile_dropWhile (p : α → Bool) (l : List α) :
    (l.dropWhile p).dropWhile p = l.dropWhile p := by
  induction l with
  | nil => rfl
  | cons a t ih =>
    by_cases h : p a
    · simp [List.dropWhile_cons, h, ih]
    · simp [List.dropWhile_cons, h]

theorem stripEnd_stripEnd (l : List Char) : stripEnd (stripEnd l) = stripEnd l := by
  simp [stripEnd, dropWhile_dropWhile]

theorem stripEnd_isPrefix_self (l : List Char) : stripEnd l <+: l := by
  obtain ⟨t, ht⟩ := List.dropWhile_suffix (l := l.reverse) isPySpace
  have h2 : (l.reverse.dropWhile isPySpace).reverse ++ t.reverse = l := by
    rw [← List.reverse_append, ht, List.reverse_reverse]
  exact ⟨t.reverse, h2⟩

theorem dropWhile_stripEnd (l : List Char) (h : l.dropWhile isPySpace = l) :
    (stripEnd l).dropWhile isPySpace = stripEnd l := by
  rcases hs : stripEnd l with _ | ⟨b, bs⟩
  · rfl
  · have hpre : b :: bs <+: l := hs ▸ stripEnd_isPrefix_self l
    rcases hpre with ⟨tl, htl⟩
    rcases l with _ | ⟨a, t⟩
    · simp at htl
    · have hb : b = a := by
        have := htl
        simp at this
        exact this.1
      subst hb
      have hpa : isPySpace b = false := by
        by_cases hpb : isPySpace b
        · rw [List.dropWhile_cons, if_pos hpb] at h
          have hlen := congrArg List.length h
          have := (List.dropWhile_suffix (l := t) isPySpace).length_le
          simp at hlen
          omega
        · simpa using hpb
      simp [List.dropWhile_cons, hpa]

theorem pyStripList_idem (l : List Char) : pyStripList (pyStripList l) = pyStripList l := by
  unfold pyStripList
  rw [dropWhile_stripEnd _ (dropWhile_dropWhile isPySpace l), stripEnd_stripEnd]

theorem pyStrip_idem (s : String) : pyStrip (pyStrip s) = pyStrip s := by
  simp [pyStrip, pyStripList_idem]

theorem looksLikeMD_pyStrip (s : String) : looksLikeMD (pyStrip s) = looksLikeMD s := by
  unfold looksLikeMD pyStrip
  have h1 : (String.mk (pyStripList s.toList)).toList = pyStripList s.toList := rfl
  rw [h1, pyStripList_idem]

/-! ### Lemmas about the `to_events` loop -/

theorem stepPair_shape {cm : List (String × String × String)} {year : Nat} {st st' : EvState}
    {p : String × String} (h : stepPair cm year st p = .ok st') :
    st' = st ∨
    (mlookup cm p.2 = none ∧ st' = { st with unknown := insertNew st.unknown p.2 }) ∨
    (∃ v ev, mlookup cm p.2 = some v ∧ ev.code = p.2 ∧
      st' = { st with events := st.events ++ [ev] }) := by
  unfold stepPair at h
  split at h
  · exact Or.inl (Except.ok.injEq .. ▸ h).symm
  · split at h
    · rename_i hl
      cases h
      exact Or.inr (Or.inl ⟨hl, rfl⟩)
    · rename_i s e hl
      split at h
      · exact Or.inl (Except.ok.injEq .. ▸ h).symm
      · split at h
        · rename_i sdt edt hps hpe
          cases h
          exact Or.inr (Or.inr ⟨(s, e), _, hl, rfl, rfl⟩)
        · cases h

theorem stepPair_mono {cm : List (String × String × String)} {year : Nat} {st st' : EvState}
    {p : String × String} (h : stepPair cm year st p = .ok st') :
    ∃ de du, st'.events = st.events ++ de ∧ st'.unknown = st.unknown ++ du := by
  rcases stepPair_shape h with h | ⟨_, h⟩ | ⟨v, ev, _, _, h⟩
  · exact ⟨[], [], by simp [h], by simp [h]⟩
  · refine ⟨[], if st.unknown.contains p.2 then [] else [p.2], by simp [h], ?_⟩
    rw [h]
    simp only [insertNew]
    split <;> simp
  · exact ⟨[ev], [], by simp [h], by simp [h]⟩

theorem runPairs_mono {cm : List (String × String × String)} {year : Nat} :
    ∀ {ps : List (String × String)} {st st' : EvState},
    runPairs cm year st ps = .ok st' →
    ∃ de du, st'.events = st.events ++ de ∧ st'.unknown = st.unknown ++ du := by
  intro ps
  induction ps with
  | nil =>
    intro st st' h
    cases h
    exact ⟨[], [], by simp, by simp⟩
  | cons p ps ih =>
    intro st st' h
    unfold runPairs at h
    split at h
    · rename_i st1 hstep
      obtain ⟨de1, du1, he1, hu1⟩ := stepPair_mono hstep
      obtain ⟨de2, du2, he2, hu2⟩ := ih h
      exact ⟨de1 ++ de2, du1 ++ du2, by simp [he2, he1], by simp [hu2, hu1]⟩
    · cases h

theorem runPairs_append {cm : List (String × String × String)} {year : Nat}
    (l1 l2 : List (String × String)) (st : EvState) :
    runPairs cm year st (l1 ++ l2) =
      match runPairs cm year st l1 with
      | .ok st1 => runPairs cm year st1 l2
      | .error e => .error e := by
  induction l1 generalizing st with
  | nil => simp [runPairs]
  | cons p ps ih =>
    simp only [List.cons_append, runPairs]
    split <;> simp [ih]

theorem insertNew_nodup {l : List String} {x : String} (h : l.Nodup) :
    (insertNew l x).Nodup := by
  unfold insertNew
  split
  · exact h
  · rename_i hc
    simp only [List.nodup_append, List.nodup_cons]
    refine ⟨h, by simp, ?_⟩
    intro a ha hb
    simp at hb
    subst hb
    exact hc (by simpa using ha)

theorem runPairs_nodup {cm : List (String × String × String)} {year : Nat} :
    ∀ {ps : List (String × String)} {st st' : EvState},
    runPairs cm year st ps = .ok st' → st.unknown.Nodup → st'.unknown.Nodup := by
  intro ps
  induction ps with
  | nil =>
    intro st st' h hn
    cases h
    exact hn
  | cons p ps ih =>
    intro st st' h hn
    unfold runPairs at h
    split at h
    · rename_i st1 hstep
      refine ih h ?_
      rcases stepPair_shape hstep with hs | ⟨_, hs⟩ | ⟨v, ev, _, _, hs⟩
      · rw [hs]; exact hn
      · rw [hs]; exact insertNew_nodup hn
      · rw [hs]; exact hn
    · cases h

theorem runPairs_mapped {cm : List (String × String × String)} {year : Nat} :
    ∀ {ps : List (String × String)} {st st' : EvState},
    runPairs cm year st ps = .ok st' →
    (∀ ev ∈ st.events, ∃ v, mlookup cm ev.code = some v) →
    ∀ ev ∈ st'.events, ∃ v, mlookup cm ev.code = some v := by
  intro ps
  induction ps with
  | nil =>
    intro st st' h hm
    cases h
    exact hm
  | cons p ps ih =>
    intro st st' h hm
    unfold runPairs at h
    split at h
    · rename_i st1 hstep
      refine ih h ?_
      rcases stepPair_shape hstep with hs | ⟨_, hs⟩ | ⟨v, ev, hl, hcode, hs⟩
      · rw [hs]; exact hm
      · rw [hs]; exact hm
      · rw [hs]
        intro ev' hev'
        simp only [List.mem_append, List.mem_singleton] at hev'
        rcases hev' with hev' | hev'
        · exact hm ev' hev'
        · subst hev'
          exact ⟨v, hcode ▸ hl⟩
    · cases h

/-! ### Lemmas about `pickWidest` -/

theorem pickWidest_foldl_spec :
    ∀ (ds : List Table) (d : Table),
    ∃ l1 l2, d :: ds = l1 ++ (ds.foldl (fun best t => if best.ncols < t.ncols then t else best) d) :: l2 ∧
      (∀ u ∈ l1, u.ncols < (ds.foldl (fun best t => if best.ncols < t.ncols then t else best) d).ncols) ∧
      (∀ u ∈ d :: ds, u.ncols ≤ (ds.foldl (fun best t => if best.ncols < t.ncols then t else best) d).ncols) := by
  intro ds
  induction ds with
  | nil =>
    intro d
    exact ⟨[], [], by simp, by simp, by simp⟩
  | cons a ds ih =>
    intro d
    by_cases hlt : d.ncols < a.ncols
    · obtain ⟨l1, l2, heq, hall, hmax⟩ := ih a
      refine ⟨d :: l1, l2, ?_, ?_, ?_⟩
      · simpa [List.foldl_cons, if_pos hlt] using congrArg (d :: ·) heq
      · simp only [List.foldl_cons, if_pos hlt]
        intro u hu
        rcases List.mem_cons.mp hu with hu | hu
        · exact hu ▸ lt_of_lt_of_le hlt (hmax a (by simp))
        · exact hall u hu
      · simp only [List.foldl_cons, if_pos hlt]
        intro u hu
        rcases List.mem_cons.mp hu with hu | hu
        · exact hu ▸ le_of_lt (lt_of_lt_of_le hlt (hmax a (by simp)))
        · exact hmax u hu
    · obtain ⟨l1, l2, heq, hall, hmax⟩ := ih d
      have hfold : (a :: ds).foldl (fun best t => if best.ncols < t.ncols then t else best) d =
          ds.foldl (fun best t => if best.ncols < t.ncols then t else best) d := by
        simp [List.foldl_cons, if_neg hlt]
      rcases l1 with _ | ⟨x, l1'⟩
      · have hw : ds.foldl (fun best t => if best.ncols < t.ncols then t else best) d = d := by
          have := (List.cons.injEq ..).mp (by simpa using heq)
          exact this.1.symm
        refine ⟨[], a :: ds, ?_, by simp, ?_⟩
        · rw [hfold, hw]
          simp
        · rw [hfold, hw]
          intro u hu
          rcases List.mem_cons.mp hu with hu | hu
          · exact hu ▸ le_rfl
          rcases List.mem_cons.mp hu with hu' | hu'
          · exact hu' ▸ le_of_not_lt hlt
          · exact hw ▸ hmax u (by simp [hu'])
      · have hx : x = d := by
          have := (List.cons.injEq ..).mp (by simpa using heq)
          exact this.1.symm
        have hds : ds = l1' ++ (ds.foldl (fun best t => if best.ncols < t.ncols then t else best) d) :: l2 := by
          have := (List.cons.injEq ..).mp (by simpa using heq)
          exact this.2
        have hxlt : x.ncols < (ds.foldl (fun best t => if best.ncols < t.ncols then t else best) d).ncols :=
          hall x (by simp)
        refine ⟨d :: a :: l1', l2, ?_, ?_, ?_⟩
        · rw [hfold]
          simpa using congrArg (fun l => d :: a :: l) hds
        · rw [hfold]
          intro u hu
          rcases List.mem_cons.mp hu with hu | hu
          · subst hx
            subst hu
            exact hxlt
          rcases List.mem_cons.mp hu with hu' | hu'
          · subst hx
            subst hu'
            exact lt_of_le_of_lt (le_of_not_lt hlt) hxlt
          · exact hall u (by simp [hu'])
        · rw [hfold]
          intro u hu
          rcases List.mem_cons.mp hu with hu | hu
          · exact hu ▸ hmax d (by simp)
          rcases List.mem_cons.mp hu with hu' | hu'
          · exact hu' ▸ le_trans (le_of_not_lt hlt) (hmax d (by simp))
          · exact hmax u (by simp [hu'])

/-! ### Lemmas about `relabelCols` -/

theorem relabelAux_length (n : Nat) (cols : List String) :
    (relabelAux n cols).length = cols.length := by
  induction cols generalizing n with
  | nil => rfl
  | cons c cs ih => simp [relabelAux, ih]

theorem relabelAux_getD (cols : List String) :
    ∀ (n i : Nat), i < cols.length →
    (relabelAux n cols).getD i "" =
      (if pyStrip (cols.getD i "") = "" then "col_" ++ toString (n + i)
       else pyStrip (cols.getD i "")) := by
  induction cols with
  | nil =>
    intro n i h
    simp at h
  | cons c cs ih =>
    intro n i h
    cases i with
    | zero => simp [relabelAux]
    | succ j =>
      have hj : j < cs.length := by simpa using h
      have := ih (n + 1) j hj
      simp only [relabelAux, List.getD_cons_succ]
      rw [this]
      have harith : n + 1 + j = n + (j + 1) := by omega
      rw [harith]

/-! ### Lemmas about the code-map dict -/

theorem mlookup_cons {α : Type} (p : String × α) (m : List (String × α)) (q : String) :
    mlookup (p :: m) q = if q = p.1 then some p.2 else mlookup m q := by
  rcases p with ⟨k, v⟩
  rfl

theorem mlookup_append_absent {α : Type} (m : List (String × α)) (k : String) (v : α)
    (h : m.any (fun p => p.1 = k) = false) (q : String) :
    mlookup (m ++ [(k, v)]) q = if q = k then some v else mlookup m q := by
  induction m with
  | nil => simp [mlookup]
  | cons p m ih =>
    simp only [List.any_cons, Bool.or_eq_false_iff, decide_eq_false_iff_not] at h
    rw [List.cons_append, mlookup_cons, mlookup_cons]
    by_cases hq : q = p.1
    · have hqk : ¬ q = k := fun hk => h.1 (hq.symm.trans hk)
      rw [if_pos hq, if_neg hqk, if_pos hq]
    · rw [if_neg hq, if_neg hq]
      exact ih (by simpa using h.2)

theorem mlookup_replace_ne {α : Type} (m : List (String × α)) (k : String) (v : α)
    (q : String) (hq : ¬ q = k) :
    mlookup (m.map (fun p => if p.1 = k then (k, v) else p)) q = mlookup m q := by
  induction m with
  | nil => rfl
  | cons p m ih =>
    rw [List.map_cons, mlookup_cons, mlookup_cons]
    by_cases hp : p.1 = k
    · rw [if_pos hp]
      rw [if_neg (show ¬ q = (k, v).1 from hq)]
      rw [if_neg (fun h => hq (h.trans hp))]
      exact ih
    · rw [if_neg hp]
      by_cases hqp : q = p.1
      · rw [if_pos hqp, if_pos hqp]
      · rw [if_neg hqp, if_neg hqp]
        exact ih

theorem mlookup_replace_eq {α : Type} (m : List (String × α)) (k : String) (v : α)
    (hany : m.any (fun p => p.1 = k) = true) :
    mlookup (m.map (fun p => if p.1 = k then (k, v) else p)) k = some v := by
  induction m with
  | nil => simp at hany
  | cons p m ih =>
    rw [List.map_cons, mlookup_cons]
    by_cases hp : p.1 = k
    · rw [if_pos hp]
      simp
    · rw [if_neg hp]
      rw [if_neg (fun h => hp h.symm)]
      refine ih ?_
      simp only [List.any_cons, Bool.or_eq_true, decide_eq_true_eq] at hany
      rcases hany with h | h
      · exact absurd h hp
      · simpa using h

theorem mlookup_dictInsert {α : Type} (m : List (String × α)) (k q : String) (v : α) :
    mlookup (dictInsert m k v) q = if q = k then some v else mlookup m q := by
  unfold dictInsert
  by_cases hany : m.any (fun p => p.1 = k) = true
  · rw [if_pos hany]
    by_cases hq : q = k
    · subst hq
      rw [if_pos rfl]
      exact mlookup_replace_eq m q v hany
    · rw [if_neg hq]
      exact mlookup_replace_ne m k v q hq
  · rw [if_neg hany]
    refine mlookup_append_absent m k v ?_ q
    simp only [Bool.not_eq_true] at hany
    exact hany

theorem load_code_map_foldl (rows : List CsvRow) :
    ∀ (m : List (String × String × String)) (k : String),
    mlookup (rows.foldl (fun m r =>
        dictInsert m (pyStrip r.code) (csvVal r.startv, csvVal r.endv)) m) k =
      match lastBinding rows k with
      | some r => some (csvVal r.startv, csvVal r.endv)
      | none => mlookup m k := by
  induction rows with
  | nil =>
    intro m k
    simp [lastBinding]
  | cons r rest ih =>
    intro m k
    simp only [List.foldl_cons, lastBinding]
    rw [ih]
    rcases h : lastBinding rest k with _ | r'
    · simp only [mlookup_dictInsert]
      by_cases hk : pyStrip r.code = k
      · simp [hk]
      · rw [if_neg hk, if_neg (fun he => hk he.symm)]
    · simp

theorem mlookup_lastBinding (rows : List CsvRow) (k : String) :
    mlookup (load_code_map rows) k =
      match lastBinding rows k with
      | some r => some (csvVal r.startv, csvVal r.endv)
      | none => none := by
  have := load_code_map_foldl rows [] k
  simpa [load_code_map, mlookup] using this

theorem dictInsert_mem {α : Type} {m : List (String × α)} {k : String} {v : α}
    {p : String × α} (h : p ∈ dictInsert m k v) : p.1 = k ∨ p ∈ m := by
  unfold dictInsert at h
  split at h
  · rw [List.mem_map] at h
    obtain ⟨q, hq, hpq⟩ := h
    by_cases hq1 : q.1 = k
    · rw [if_pos hq1] at hpq
      exact Or.inl (by rw [← hpq])
    · rw [if_neg hq1] at hpq
      exact Or.inr (hpq ▸ hq)
  · rw [List.mem_append] at h
    rcases h with h | h
    · exact Or.inr h
    · simp at h
      exact Or.inl (by rw [h])

theorem load_code_map_keys_stripped (rows : List CsvRow) :
    ∀ p ∈ load_code_map rows, pyStrip p.1 = p.1 := by
  unfold load_code_map
  suffices h : ∀ (m : List (String × String × String)),
      (∀ p ∈ m, pyStrip p.1 = p.1) →
      ∀ p ∈ rows.foldl (fun m r =>
        dictInsert m (pyStrip r.code) (csvVal r.startv, csvVal r.endv)) m, pyStrip p.1 = p.1 by
    exact h [] (by simp)
  induction rows with
  | nil =>
    intro m hm
    simpa using hm
  | cons r rest ih =>
    intro m hm
    simp only [List.foldl_cons]
    refine ih _ ?_
    intro p hp
    rcases dictInsert_mem hp with h | h
    · rw [h]
      exact pyStrip_idem r.code
    · exact hm p h

theorem dictInsert_keys {α : Type} (m : List (String × α)) (k : String) (v : α) :
    (dictInsert m k v).map Prod.fst =
      if m.any (fun p => p.1 = k) then m.map Prod.fst else m.map Prod.fst ++ [k] := by
  unfold dictInsert
  split
  · rw [List.map_map]
    refine List.map_congr_left ?_
    intro p hp
    by_cases hpk : p.1 = k
    · simp [Function.comp, hpk]
    · simp [Function.comp, hpk]
  · simp

theorem load_code_map_keys_nodup (rows : List CsvRow) :
    ((load_code_map rows).map Prod.fst).Nodup := by
  unfold load_code_map
  suffices h : ∀ (m : List (String × String × String)),
      (m.map Prod.fst).Nodup →
      ((rows.foldl (fun m r =>
        dictInsert m (pyStrip r.code) (csvVal r.startv, csvVal r.endv)) m).map Prod.fst).Nodup by
    exact h [] (by simp)
  induction rows with
  | nil =>
    intro m hm
    simpa using hm
  | cons r rest ih =>
    intro m hm
    simp only [List.foldl_cons]
    refine ih _ ?_
    rw [dictInsert_keys]
    split
    · exact hm
    · rename_i h
      rw [List.nodup_append]
      refine ⟨hm, by simp, ?_⟩
      intro a ha hb
      simp at hb
      subst hb
      rw [List.mem_map] at ha
      obtain ⟨p, hp, hpa⟩ := ha
      simp only [Bool.not_eq_true, List.any_eq_false, decide_eq_false_iff_not] at h
      exact (h p hp) hpa

theorem mlookup_mem_keys {α : Type} {m : List (String × α)} {k : String} {v : α}
    (h : mlookup m k = some v) : k ∈ m.map Prod.fst := by
  induction m with
  | nil => simp [mlookup] at h
  | cons p m ih =>
    simp only [mlookup] at h
    by_cases hk : k = p.1
    · simp [hk]
    · rw [if_neg hk] at h
      simp [ih h]

/-! ### Small facts about dates and times -/

theorem nextDay_ne (d : SDate) : nextDay d ≠ d := by
  rcases d with ⟨y, m, dd⟩
  unfold nextDay
  split
  · simp only [ne_eq, SDate.mk.injEq]
    intro h
    omega
  · split
    · simp only [ne_eq, SDate.mk.injEq]
      intro h
      omega
    · simp only [ne_eq, SDate.mk.injEq]
      intro h
      rename_i h12
      omega

theorem isCanonHM_spec {s : String} (h : isCanonHM s = true) :
    ∃ hh mm, parseHM s = some (hh, mm) ∧ fmtHM hh mm = s := by
  unfold isCanonHM at h
  rcases hp : parseHM s with _ | ⟨hh, mm⟩
  · rw [hp] at h
    cases h
  · rw [hp] at h
    exact ⟨hh, mm, rfl, by simpa using h⟩

/-! ### Lemmas about `normalize_table` -/

theorem nameCandidates_ne_nil {nds : List String} (h : nds ≠ []) : nameCandidates nds ≠ [] := by
  unfold nameCandidates
  rcases hf : nds.find? (fun c => nameHints.any (fun x => strContains c x)) with _ | c
  · rcases nds with _ | ⟨a, nds'⟩
    · exact absurd rfl h
    · rcases nds' with _ | ⟨b, rest⟩ <;> simp [positionalCandidates]
  · simp

theorem promoteHeader_no_promo {t : Table}
    (h : t.cols.filter (fun c => looksLikeMD c) ≠ []) :
    promoteHeader t = .ok (t, t.cols.filter (fun c => looksLikeMD c)) := by
  unfold promoteHeader
  rw [if_neg (fun he => h (List.isEmpty_iff.mp he))]

theorem promoteHeader_promo {t : Table} {first : List String} {rest : List (List String)}
    (hdc : t.cols.filter (fun c => looksLikeMD c) = [])
    (hrows : t.rows = first :: rest)
    (hany : first.any (fun v => looksLikeMD v) = true) :
    promoteHeader t = .ok ({ cols := first.map pyStrip, rows := rest },
      (first.map pyStrip).filter (fun c => looksLikeMD c)) := by
  unfold promoteHeader
  rw [hdc, hrows]
  simp only [List.isEmpty_nil, if_true]
  rw [if_pos hany]

theorem promoteHeader_failed {t : Table} {first : List String} {rest : List (List String)}
    (hdc : t.cols.filter (fun c => looksLikeMD c) = [])
    (hrows : t.rows = first :: rest)
    (hany : first.any (fun v => looksLikeMD v) = false) :
    promoteHeader t = .ok (t, []) := by
  unfold promoteHeader
  rw [hdc, hrows]
  simp only [List.isEmpty_nil, if_true]
  rw [if_neg (by rw [hany]; simp)]

theorem normalize_ok_shape {t t1 : Table} {dcs : List String}
    (hp : promoteHeader t = .ok (t1, dcs)) (hne : dcs ≠ [])
    (hnd : t1.cols.filter (fun c => !(dcs.contains c)) ≠ []) :
    ∃ T, normalize_table t = .ok (T, dcs) := by
  rcases hc : nameCandidates (t1.cols.filter (fun c => !(dcs.contains c))) with _ | ⟨nc, cs⟩
  · exact absurd hc (nameCandidates_ne_nil hnd)
  · refine ⟨{ cols := t1.cols.map (fun c => if c = nc then "スタッフ名" else c),
              rows := t1.rows.filter (fun r => !(is_week_row t1.cols dcs r)) }, ?_⟩
    unfold normalize_table
    rw [hp]
    dsimp only
    rw [if_neg (fun he => hne (List.isEmpty_iff.mp he)), hc]

theorem nondates_ne_nil {cols : List String} {c : String} (hc : c ∈ cols)
    (hnd : looksLikeMD c = false) :
    cols.filter (fun x => !((cols.filter (fun y => looksLikeMD y)).contains x)) ≠ [] := by
  intro h
  rw [List.filter_eq_nil_iff] at h
  have hcont : (cols.filter (fun y => looksLikeMD y)).contains c = false := by
    have : c ∉ cols.filter (fun y => looksLikeMD y) := by
      intro hmem
      rw [List.mem_filter] at hmem
      rw [hnd] at hmem
      exact Bool.false_ne_true hmem.2
    simpa using this
  exact h c hc (by rw [hcont]; rfl)

/-! ## The claims -/

/-- Claim C9: `normalize_table` requires at least one non-date column: when
every column label matches the month/day pattern, the person-name-column
selection step (`candidates[0] if candidates else nondates[0]`) raises an
`IndexError`, an error kind outside the four `ValueError`-based categories
of the spec's taxonomy. -/
theorem C9_all_date_columns_index_error (t : Table)
    (hne : t.cols ≠ []) (hall : ∀ c ∈ t.cols, looksLikeMD c = true) :
    normalize_table t = .error (.indexError "list index out of range") ∧
    (∀ m, (PyError.indexError "list index out of range").kind ≠ (PyError.valueError m).kind) := by
  refine ⟨?_, fun m h => by simp [PyError.kind] at h⟩
  have hfilter : t.cols.filter (fun c => looksLikeMD c) = t.cols :=
    List.filter_eq_self.mpr hall
  have hp : promoteHeader t = .ok (t, t.cols) := by
    have := promoteHeader_no_promo (t := t) (by rw [hfilter]; exact hne)
    rwa [hfilter] at this
  have hnon : t.cols.filter (fun c => !(t.cols.contains c)) = [] := by
    rw [List.filter_eq_nil_iff]
    intro c hc
    simp [hc]
  unfold normalize_table
  rw [hp]
  dsimp only
  rw [if_neg (fun he => hne (List.isEmpty_iff.mp he)), hnon]
  rfl

/-- Witness for C9 at a concrete all-date-columns table. -/
theorem C9_all_date_columns_index_error_witness :
    normalize_table ⟨["4/1", "4/2"], [["A", "B"]]⟩ =
      .error (.indexError "list index out of range") :=
  (C9_all_date_columns_index_error ⟨["4/1", "4/2"], [["A", "B"]]⟩ (by simp)
    (by decide)).1

/-- Counterexample to claim C2 as stated: the table whose single column
label `"4/1"` matches the date pattern has a DateColumn, yet
`normalize_table` does not return that DateColumn set — it raises the
name-column `IndexError`, because no non-date column is left to pick the
person-name column from. -/
theorem C2_counterexample :
    normalize_table ⟨["4/1"], [["x"]]⟩ = .error (.indexError "list index out of range") := by
  rfl

/-- Claim C2, amended: the guarantee holds only when a non-date column also
exists (otherwise the name-column step fails, see C9), and the
no-date-header failure is a `ValueError` only when the table has a data row
(on a rowless table the promotion step itself fails).  Three parts:
(1) some original label matches and some original label does not match →
`normalize_table` succeeds and returns exactly the matching columns;
(2) no original label matches, the first data row triggers promotion, and
some promoted label does not match → it succeeds and returns exactly the
promoted labels that match;
(3) the table has a data row and nothing matches even after the promotion
test → the no-date-header `ValueError`. -/
theorem C2_amended :
    (∀ (t : Table) (c0 : String),
       t.cols.filter (fun c => looksLikeMD c) ≠ [] →
       c0 ∈ t.cols → looksLikeMD c0 = false →
       ∃ T, normalize_table t = .ok (T, t.cols.filter (fun c => looksLikeMD c))) ∧
    (∀ (t : Table) (first : List String) (rest : List (List String)) (c0 : String),
       t.cols.filter (fun c => looksLikeMD c) = [] →
       t.rows = first :: rest →
       first.any (fun v => looksLikeMD v) = true →
       c0 ∈ first.map pyStrip → looksLikeMD c0 = false →
       ∃ T, normalize_table t = .ok (T, (first.map pyStrip).filter (fun c => looksLikeMD c))) ∧
    (∀ (t : Table) (first : List String) (rest : List (List String)),
       t.cols.filter (fun c => looksLikeMD c) = [] →
       t.rows = first :: rest →
       first.any (fun v => looksLikeMD v) = false →
       normalize_table t = .error (.valueError "ヘッダに日付（M/D）が見つかりません。")) := by
  refine ⟨?_, ?_, ?_⟩
  · intro t c0 hne hc0 hnd
    exact normalize_ok_shape (promoteHeader_no_promo hne) hne (nondates_ne_nil hc0 hnd)
  · intro t first rest c0 hdc hrows hany hc0 hnd
    have hne : (first.map pyStrip).filter (fun c => looksLikeMD c) ≠ [] := by
      rw [List.any_eq_true] at hany
      obtain ⟨v, hv, hlv⟩ := hany
      intro hnil
      rw [List.filter_eq_nil_iff] at hnil
      refine hnil (pyStrip v) (List.mem_map_of_mem _ hv) ?_
      rw [looksLikeMD_pyStrip]
      simp [hlv]
    exact normalize_ok_shape (promoteHeader_promo hdc hrows hany) hne
      (nondates_ne_nil hc0 hnd)
  · intro t first rest hdc hrows hany
    unfold normalize_table
    rw [promoteHeader_failed hdc hrows hany]
    rfl

/-- Witness for C2 (amended): all three parts at concrete tables. -/
theorem C2_amended_witness :
    (∃ T, normalize_table ⟨["name", "4/1"], [["山田", "A"]]⟩ = .ok (T, ["4/1"])) ∧
    (∃ T, normalize_table ⟨["a", "b"], [["名前", "4/1"], ["山田", "A"]]⟩ = .ok (T, ["4/1"])) ∧
    normalize_table ⟨["a", "b"], [["x", "y"]]⟩ =
      .error (.valueError "ヘッダに日付（M/D）が見つかりません。") := by
  refine ⟨?_, ?_, ?_⟩
  · have h := C2_amended.1 ⟨["name", "4/1"], [["山田", "A"]]⟩ "name"
      (by decide) (by decide) (by decide)
    simpa using h
  · have h := C2_amended.2.1 ⟨["a", "b"], [["名前", "4/1"], ["山田", "A"]]⟩
      ["名前", "4/1"] [["山田", "A"]] "名前" (by decide) rfl (by decide) (by decide) (by decide)
    simpa using h
  · exact C2_amended.2.2 ⟨["a", "b"], [["x", "y"]]⟩ ["x", "y"] [] (by decide) rfl (by decide)

/-- Claim C5: among all candidate tables collected by the Table Locator (in
the fixed strategy-trial order modelled by `candidate_list`), the selected
table is one with the greatest column count, and on ties the first one in
that order is selected — every candidate strictly before the selected one
is strictly narrower.  This holds regardless of row counts, since
`Table.ncols` is determined by the header alone. -/
theorem C5_widest_first_tiebreak (lat strm perm whole fb : List Table)
    (h : candidate_list lat strm perm whole fb ≠ []) :
    ∃ d l1 l2,
      read_pdf_table lat strm perm whole fb = .ok { cols := relabelCols d.cols, rows := d.rows } ∧
      candidate_list lat strm perm whole fb = l1 ++ d :: l2 ∧
      (∀ u ∈ l1, u.ncols < d.ncols) ∧
      (∀ u ∈ candidate_list lat strm perm whole fb, u.ncols ≤ d.ncols) := by
  rcases hcl : candidate_list lat strm perm whole fb with _ | ⟨d0, ds⟩
  · exact absurd hcl h
  · obtain ⟨l1, l2, heq, hall, hmax⟩ := pickWidest_foldl_spec ds d0
    refine ⟨ds.foldl (fun best t => if best.ncols < t.ncols then t else best) d0, l1, l2,
      ?_, ?_, hall, ?_⟩
    · unfold read_pdf_table
      rw [hcl]
      rfl
    · exact heq
    · exact hmax

/-- Witness for C5 at two zero-row candidates of equal column count: the
first one (from the lattice stage) is selected. -/
theorem C5_widest_first_tiebreak_witness :
    candidate_list [⟨["a", "b"], []⟩, ⟨["c", "d"], []⟩] [] [] [] [] ≠ [] ∧
    (∃ d l1 l2,
      read_pdf_table [⟨["a", "b"], []⟩, ⟨["c", "d"], []⟩] [] [] [] [] =
        .ok { cols := relabelCols d.cols, rows := d.rows } ∧
      candidate_list [⟨["a", "b"], []⟩, ⟨["c", "d"], []⟩] [] [] [] [] = l1 ++ d :: l2 ∧
      (∀ u ∈ l1, u.ncols < d.ncols) ∧
      (∀ u ∈ candidate_list [⟨["a", "b"], []⟩, ⟨["c", "d"], []⟩] [] [] [] [],
        u.ncols ≤ d.ncols)) :=
  ⟨by decide,
   C5_widest_first_tiebreak [⟨["a", "b"], []⟩, ⟨["c", "d"], []⟩] [] [] [] [] (by decide)⟩

/-- Counterexample to claim C6 as stated: a selected table with the
duplicate header `["a", "a"]` keeps both labels — the duplicate cell at
index 1 is not replaced by `"col_1"`. -/
theorem C6_counterexample :
    read_pdf_table [⟨["a", "a"], []⟩] [] [] [] [] = .ok ⟨["a", "a"], []⟩ := by
  rfl

/-- Claim C6, amended: after the Table Locator selects a table, each blank
header cell (blank after stripping) is replaced by the positional
placeholder `col_<index>`, and each non-blank header cell is replaced by
its stripped value — duplicates are left as they are, not renamed.
Parts: (1) the cell-wise description of the relabelling, (2) it preserves
the column count, (3) the selected table's header is exactly the
relabelling of the widest candidate's header. -/
theorem C6_amended :
    (∀ (cols : List String) (i : Nat), i < cols.length →
       (relabelCols cols).getD i "" =
         (if pyStrip (cols.getD i "") = "" then "col_" ++ toString i
          else pyStrip (cols.getD i ""))) ∧
    (∀ cols : List String, (relabelCols cols).length = cols.length) ∧
    (∀ (lat strm perm whole fb : List Table) (T : Table),
       read_pdf_table lat strm perm whole fb = .ok T →
       ∃ d, pickWidest (candidate_list lat strm perm whole fb) = some d ∧
         T.cols = relabelCols d.cols ∧ T.rows = d.rows) := by
  refine ⟨?_, ?_, ?_⟩
  · intro cols i h
    have := relabelAux_getD cols 0 i h
    simpa [relabelCols] using this
  · intro cols
    exact relabelAux_length 0 cols
  · intro lat strm perm whole fb T h
    unfold read_pdf_table at h
    rcases hp : pickWidest (candidate_list lat strm perm whole fb) with _ | d
    · rw [hp] at h
      cases h
    · rw [hp] at h
      cases h
      exact ⟨d, rfl, rfl, rfl⟩

/-- Witness for C6 (amended): a header with a blank, a padded and a
duplicate cell, and the selected-table link at a concrete call. -/
theorem C6_amended_witness :
    (relabelCols ["", " a ", " a "]).getD 0 "" = "col_0" ∧
    (relabelCols ["", " a ", " a "]).getD 2 "" = "a" ∧
    (relabelCols ["", " a ", " a "]).length = 3 ∧
    (∃ d, pickWidest (candidate_list [⟨["", " a ", " a "], []⟩] [] [] [] []) = some d ∧
      (Table.mk ["col_0", "a", "a"] []).cols = relabelCols d.cols ∧
      (Table.mk ["col_0", "a", "a"] []).rows = d.rows) := by
  refine ⟨?_, ?_, ?_, ?_⟩
  · have h := C6_amended.1 ["", " a ", " a "] 0 (by decide)
    simpa using h
  · have h := C6_amended.1 ["", " a ", " a "] 2 (by decide)
    simpa using h
  · exact C6_amended.2.1 ["", " a ", " a "]
  · exact C6_amended.2.2 [⟨["", " a ", " a "], []⟩] [] [] [] [] ⟨["col_0", "a", "a"], []⟩ (by rfl)

/-- Counterexample to claim C8 as stated: the three fatal failures — no
table found, no date header, person not found — all carry the same
exception kind `ValueError`; they are not distinct, identifiable error
kinds, so a caller distinguishing by exception type alone cannot tell them
apart. -/
theorem C8_counterexample :
    read_pdf_table [] [] [] [] [] =
      .error (.valueError "表が検出できませんでした。PDFのフォーマットを確認してください。") ∧
    normalize_table ⟨["a"], [["x"]]⟩ =
      .error (.valueError "ヘッダに日付（M/D）が見つかりません。") ∧
    extract_person_row ⟨["スタッフ名"], [["佐藤"]]⟩ [] "山田" =
      .error (.valueError "指定の氏名が見つかりませんでした: 山田") ∧
    (PyError.valueError "表が検出できませんでした。PDFのフォーマットを確認してください。").kind =
      (PyError.valueError "ヘッダに日付（M/D）が見つかりません。").kind ∧
    (PyError.valueError "ヘッダに日付（M/D）が見つかりません。").kind =
      (PyError.valueError "指定の氏名が見つかりませんでした: 山田").kind := by
  exact ⟨rfl, rfl, rfl, rfl, rfl⟩

/-- Claim C8, amended: the three fatal conditions all propagate as the one
generic exception type `ValueError`; they are distinguishable only by
their message strings, which are pairwise distinct — so the boundary layer
must inspect the error text (as `main.py` does by re-raising
`HTTPException(400, str(e))`). -/
theorem C8_amended :
    read_pdf_table [] [] [] [] [] =
      .error (.valueError "表が検出できませんでした。PDFのフォーマットを確認してください。") ∧
    normalize_table ⟨["a"], [["x"]]⟩ =
      .error (.valueError "ヘッダに日付（M/D）が見つかりません。") ∧
    extract_person_row ⟨["スタッフ名"], [["佐藤"]]⟩ [] "山田" =
      .error (.valueError "指定の氏名が見つかりませんでした: 山田") ∧
    (PyError.valueError "表が検出できませんでした。PDFのフォーマットを確認してください。").kind = "ValueError" ∧
    (PyError.valueError "ヘッダに日付（M/D）が見つかりません。").kind = "ValueError" ∧
    (PyError.valueError "指定の氏名が見つかりませんでした: 山田").kind = "ValueError" ∧
    ("表が検出できませんでした。PDFのフォーマットを確認してください。" ≠ "ヘッダに日付（M/D）が見つかりません。") ∧
    ("表が検出できませんでした。PDFのフォーマットを確認してください。" ≠ "指定の氏名が見つかりませんでした: 山田") ∧
    ("ヘッダに日付（M/D）が見つかりません。" ≠ "指定の氏名が見つかりませんでした: 山田") := by
  exact ⟨rfl, rfl, rfl, rfl, rfl, rfl, by decide, by decide, by decide⟩

/-- Counterexample to claim C4 as stated: the claim promises that matching
strips ALL whitespace, but `norm` removes only ASCII and ideographic
spaces everywhere (trimming other whitespace at the edges only).  A tab
INSIDE the target name survives normalization, so `"山田\t太郎"` fails to
select the row whose cell is `"山田太郎"` — under the claim's reading the
normalized strings would be equal and the row would be selected. -/
theorem C4_counterexample :
    extract_person_row ⟨["スタッフ名", "4/1"], [["山田太郎", "A"]]⟩ ["4/1"] "山田\t太郎" =
      .error (.valueError "指定の氏名が見つかりませんでした: 山田\t太郎") := by
  rfl

/-- Claim C4, amended: the target name and every name cell are normalized
by removing every ASCII space and every full-width (ideographic) space and
trimming remaining leading/trailing whitespace — not by removing all
whitespace everywhere.  Exact equality of the normalized strings is tried
first; substring containment (the normalized cell contains the normalized
target) is used only when the exact pass selects no row; the first matching
row in table order wins; and the three targets `"山田 太郎"`,
`"山田　太郎"`, `"山田太郎"` all select the same row.  The substring parts
assume the normalized target is free of regex metacharacters, since the
source's fallback (`Series.str.contains`) treats it as a regular
expression, which coincides with substring containment exactly then. -/
theorem C4_amended :
    (∀ (t : Table) (dcs : List String) (person : String) (r : List String)
       (rs : List (List String)),
       t.cols.contains "スタッフ名" = true →
       t.rows.filter (fun r => norm (getCell t.cols r "スタッフ名") = norm person) = r :: rs →
       extract_person_row t dcs person = .ok (r, dcs)) ∧
    (∀ (t : Table) (dcs : List String) (person : String) (r : List String)
       (rs : List (List String)),
       t.cols.contains "スタッフ名" = true →
       hasRegexMeta (norm person) = false →
       t.rows.filter (fun r => norm (getCell t.cols r "スタッフ名") = norm person) = [] →
       t.rows.filter (fun r => strContains (norm (getCell t.cols r "スタッフ名")) (norm person)) =
         r :: rs →
       extract_person_row t dcs person = .ok (r, dcs)) ∧
    (∀ (t : Table) (dcs : List String) (person : String),
       t.cols.contains "スタッフ名" = true →
       hasRegexMeta (norm person) = false →
       t.rows.filter (fun r => norm (getCell t.cols r "スタッフ名") = norm person) = [] →
       t.rows.filter (fun r => strContains (norm (getCell t.cols r "スタッフ名")) (norm person)) =
         [] →
       extract_person_row t dcs person =
         .error (.valueError ("指定の氏名が見つかりませんでした: " ++ person))) ∧
    (extract_person_row ⟨["スタッフ名", "4/1"], [["佐藤花子", "B"], ["山田　太郎", "A"]]⟩
        ["4/1"] "山田 太郎" = .ok (["山田　太郎", "A"], ["4/1"]) ∧
     extract_person_row ⟨["スタッフ名", "4/1"], [["佐藤花子", "B"], ["山田　太郎", "A"]]⟩
        ["4/1"] "山田　太郎" = .ok (["山田　太郎", "A"], ["4/1"]) ∧
     extract_person_row ⟨["スタッフ名", "4/1"], [["佐藤花子", "B"], ["山田　太郎", "A"]]⟩
        ["4/1"] "山田太郎" = .ok (["山田　太郎", "A"], ["4/1"])) := by
  refine ⟨?_, ?_, ?_, by refine ⟨?_, ?_, ?_⟩ <;> rfl⟩
  · intro t dcs person r rs hcont hexact
    unfold extract_person_row
    rw [if_neg (show ¬ (!t.cols.contains "スタッフ名") = true from by rw [hcont]; simp)]
    rw [hexact]
    rfl
  · intro t dcs person r rs hcont _ hexact hsub
    unfold extract_person_row
    rw [if_neg (show ¬ (!t.cols.contains "スタッフ名") = true from by rw [hcont]; simp)]
    rw [hexact, hsub]
    rfl
  · intro t dcs person hcont _ hexact hsub
    unfold extract_person_row
    rw [if_neg (show ¬ (!t.cols.contains "スタッフ名") = true from by rw [hcont]; simp)]
    rw [hexact, hsub]
    rfl

/-- Witness for C4 (amended): each of the three matching regimes at a
concrete table. -/
theorem C4_amended_witness :
    extract_person_row ⟨["スタッフ名", "4/1"], [["山田　太郎", "A"]]⟩ ["4/1"] "山田太郎" =
      .ok (["山田　太郎", "A"], ["4/1"]) ∧
    extract_person_row ⟨["スタッフ名", "4/1"], [["x山田太郎y", "A"]]⟩ ["4/1"] "山田 太郎" =
      .ok (["x山田太郎y", "A"], ["4/1"]) ∧
    extract_person_row ⟨["スタッフ名", "4/1"], [["佐藤", "A"]]⟩ ["4/1"] "山田" =
      .error (.valueError ("指定の氏名が見つかりませんでした: " ++ "山田")) := by
  refine ⟨?_, ?_, ?_⟩
  · exact C4_amended.1 ⟨["スタッフ名", "4/1"], [["山田　太郎", "A"]]⟩ ["4/1"] "山田太郎"
      ["山田　太郎", "A"] [] (by rfl) (by rfl)
  · exact C4_amended.2.1 ⟨["スタッフ名", "4/1"], [["x山田太郎y", "A"]]⟩ ["4/1"] "山田 太郎"
      ["x山田太郎y", "A"] [] (by rfl) (by rfl) (by rfl) (by rfl)
  · exact C4_amended.2.2.1 ⟨["スタッフ名", "4/1"], [["佐藤", "A"]]⟩ ["4/1"] "山田"
      (by rfl) (by rfl) (by rfl) (by rfl)

/-- Claim C7: a code present in the CodeMapping whose start or end is empty
is an explicit day-off code — the `to_events` loop leaves the state
untouched for that day (no event, nothing added to the unknown set); and
`load_code_map` stores a missing start/end as the empty string under the
code's (stripped) key rather than dropping the key: every source row's
stripped code is a key of the map, and the surviving binding of a key
whose winning row has a missing start maps it to an empty start. -/
theorem C7_dayoff_codes :
    (∀ (cm : List (String × String × String)) (year : Nat) (st : EvState)
       (md code s e : String),
       mlookup cm code = some (s, e) → s = "" ∨ e = "" →
       stepPair cm year st (md, code) = .ok st) ∧
    (∀ (rows : List CsvRow) (r : CsvRow), r ∈ rows →
       ∃ v, mlookup (load_code_map rows) (pyStrip r.code) = some v) ∧
    (∀ (rows : List CsvRow) (k : String) (r : CsvRow),
       lastBinding rows k = some r → r.startv = none →
       ∃ e, mlookup (load_code_map rows) k = some ("", e)) := by
  refine ⟨?_, ?_, ?_⟩
  · intro cm year st md code s e hl hse
    unfold stepPair
    rcases hse with h | h
    · subst h
      simp [hl]
    · subst h
      simp [hl]
  · intro rows r hr
    have hlb : lastBinding rows (pyStrip r.code) ≠ none := by
      induction rows with
      | nil => cases hr
      | cons r0 rest ih =>
        unfold lastBinding
        rcases List.mem_cons.mp hr with h | h
        · subst h
          rcases hl : lastBinding rest (pyStrip r.code) with _ | r'
          · simp
          · simp
        · rcases hl : lastBinding rest (pyStrip r.code) with _ | r'
          · exact absurd hl (ih h)
          · simp
    rcases hl : lastBinding rows (pyStrip r.code) with _ | r'
    · exact absurd hl hlb
    · refine ⟨(csvVal r'.startv, csvVal r'.endv), ?_⟩
      rw [mlookup_lastBinding, hl]
  · intro rows k r hl hs
    rcases r with ⟨rc, rstart, rend⟩
    cases hs
    refine ⟨csvVal rend, ?_⟩
    rw [mlookup_lastBinding, hl]
    rfl

/-- Witness for C7: a day-off code mapped to `("", "")` leaves the state
unchanged, and a CSV row with missing start is stored under its stripped
code with an empty-string start. -/
theorem C7_dayoff_codes_witness :
    stepPair [("休", ("", ""))] 2025 ⟨[], []⟩ ("4/1", "休") = .ok ⟨[], []⟩ ∧
    (∃ v, mlookup (load_code_map [⟨" 休 ", none, none⟩]) (pyStrip " 休 ") = some v) ∧
    (∃ e, mlookup (load_code_map [⟨" 休 ", none, none⟩]) "休" = some ("", e)) := by
  refine ⟨?_, ?_, ?_⟩
  · exact C7_dayoff_codes.1 [("休", ("", ""))] 2025 ⟨[], []⟩ "4/1" "休" "" ""
      (by rfl) (Or.inl rfl)
  · exact C7_dayoff_codes.2.1 [⟨" 休 ", none, none⟩] ⟨" 休 ", none, none⟩ (by simp)
  · exact C7_dayoff_codes.2.2 [⟨" 休 ", none, none⟩] "休" ⟨" 休 ", none, none⟩ (by rfl) rfl

/-- Claim C10: when several CSV rows share the same stripped code string,
`load_code_map` binds that code exactly once — its key list contains the
code once — and to the (start, end) pair of the last such row in source
order; and every key of the returned mapping is its own stripped form. -/
theorem C10_duplicate_codes_last_wins :
    (∀ (rows : List CsvRow) (k : String) (r : CsvRow),
       lastBinding rows k = some r →
       mlookup (load_code_map rows) k = some (csvVal r.startv, csvVal r.endv) ∧
       ((load_code_map rows).map Prod.fst).count k = 1) ∧
    (∀ (rows : List CsvRow) (p : String × String × String),
       p ∈ load_code_map rows → pyStrip p.1 = p.1) := by
  refine ⟨?_, ?_⟩
  · intro rows k r hl
    have hlook : mlookup (load_code_map rows) k = some (csvVal r.startv, csvVal r.endv) := by
      rw [mlookup_lastBinding, hl]
    refine ⟨hlook, ?_⟩
    exact List.count_eq_one_of_mem (load_code_map_keys_nodup rows) (mlookup_mem_keys hlook)
  · intro rows p hp
    exact load_code_map_keys_stripped rows p hp

/-- Witness for C10: two rows with code `"A"` (one padded); the map binds
`"A"` once, to the last row's pair. -/
theorem C10_duplicate_codes_last_wins_witness :
    mlookup (load_code_map [⟨"A", some "09:00", some "18:00"⟩, ⟨" A ", none, some "17:00"⟩]) "A" =
      some ("", "17:00") ∧
    ((load_code_map [⟨"A", some "09:00", some "18:00"⟩, ⟨" A ", none, some "17:00"⟩]).map
      Prod.fst).count "A" = 1 ∧
    pyStrip ("A" : String) = "A" := by
  have h := C10_duplicate_codes_last_wins.1
    [⟨"A", some "09:00", some "18:00"⟩, ⟨" A ", none, some "17:00"⟩] "A"
    ⟨" A ", none, some "17:00"⟩ (by rfl)
  have h2 := C10_duplicate_codes_last_wins.2
    [⟨"A", some "09:00", some "18:00"⟩, ⟨" A ", none, some "17:00"⟩]
    ("A", ("", "17:00")) (by decide)
  exact ⟨h.1, h.2, h2⟩

theorem mem_insertNew (l : List String) (x : String) : x ∈ insertNew l x := by
  unfold insertNew
  split
  · rename_i h
    simpa using h
  · simp

/-- Claim C1: for every (date-label, code) pair whose code maps to a
non-empty start (a plain `HH:MM`, no `+1` suffix) and an end suffixed `+1`,
a successful `to_events` run emits an event whose end time-of-day is the
suffix-stripped end, whose `end_plus1` flag is true and whose date combines
the year with the month/day label; and in particular the spec's example —
code mapped to `("22:00", "07:00+1")` on `"4/1"` with year 2025 — yields
exactly one event `date="2025-04-01", start="22:00", end="07:00",
end_plus1=true`.  The start/end strings are assumed canonical zero-padded
`HH:MM` (the data model's `HH:MM` form), under which `strftime` reproduces
them verbatim; the base date is assumed below `datetime`'s upper bound so
the `+1` day exists. -/
theorem C1_overnight_shift :
    (∀ (cols : List String) (rows : List (List String)) (date_cols : List String)
       (cm : List (String × String × String)) (year : Nat) (md code s e : String) (d : SDate)
       (evs : List ShiftEvent) (unk : List String),
       to_events cols rows date_cols cm year = .ok (evs, unk) →
       (md, code) ∈ meltPairs cols rows date_cols →
       skipForms.contains code = false →
       mlookup cm code = some (s, e) →
       endsWithPlus1 s = false →
       endsWithPlus1 e = true →
       isCanonHM s = true →
       isCanonHM (dropLast2 e) = true →
       parseMD year md = some d →
       d ≠ { year := 9999, month := 12, day := 31 } →
       ({ date := fmtDate d, start := s, endv := dropLast2 e, end_plus1 := true,
          title := code, code := code } : ShiftEvent) ∈ evs) ∧
    to_events ["4/1"] [["A"]] ["4/1"] [("A", ("22:00", "07:00+1"))] 2025 =
      .ok ([{ date := "2025-04-01", start := "22:00", endv := "07:00", end_plus1 := true,
              title := "A", code := "A" }], []) := by
  constructor
  · intro cols rows date_cols cm year md code s e d evs unk hok hmem hskip hl hs1 he1 hcs
      hce hpd hmax
    obtain ⟨hh, hm, hps, hfs⟩ := isCanonHM_spec hcs
    obtain ⟨eh, em, hpe, hfe⟩ := isCanonHM_spec hce
    have hpds : parse_dt year md s = some ⟨d, hh, hm⟩ := by
      unfold parse_dt
      split
      · rename_i h0
        rw [hpd] at h0
        cases h0
      · rename_i base h0
        rw [hpd] at h0
        injection h0 with hbd
        subst hbd
        rw [if_neg (by rw [hs1]; simp)]
        split
        · rename_i h1
          rw [hps] at h1
          cases h1
        · rename_i t h1
          rw [hps] at h1
          injection h1 with ht
          subst ht
          rfl
    have hpde : parse_dt year md e = some ⟨nextDay d, eh, em⟩ := by
      unfold parse_dt
      split
      · rename_i h0
        rw [hpd] at h0
        cases h0
      · rename_i base h0
        rw [hpd] at h0
        injection h0 with hbd
        subst hbd
        rw [if_pos he1]
        split
        · rename_i h1
          rw [hpe] at h1
          cases h1
        · rename_i t h1
          rw [hpe] at h1
          injection h1 with ht
          subst ht
          rw [if_neg hmax]
    have hsne : (decide (s = "") || decide (e = "")) = false := by
      have h1 : ¬ s = "" := by
        intro h
        rw [h] at hcs
        exact absurd hcs (by decide)
      have h2 : ¬ e = "" := by
        intro h
        rw [h] at he1
        exact absurd he1 (by decide)
      simp [h1, h2]
    have hnd : decide (¬ nextDay d = d) = true := decide_eq_true (nextDay_ne d)
    have hstep : ∀ st : EvState, stepPair cm year st (md, code) =
        .ok { st with events := st.events ++
          [{ date := fmtDate d, start := s, endv := dropLast2 e, end_plus1 := true,
             title := code, code := code }] } := by
      intro st
      unfold stepPair
      dsimp only
      rw [if_neg (by rw [hskip]; simp), hl]
      dsimp only
      rw [if_neg (by rw [hsne]; simp), hpds, hpde]
      dsimp only
      rw [hfs, hfe, hnd]
    unfold to_events at hok
    rcases hrun : runPairs cm year ⟨[], []⟩ (meltPairs cols rows date_cols) with e0 | final
    · rw [hrun] at hok
      cases hok
    · rw [hrun] at hok
      injection hok with hok2
      have hevs : evs = List.insertionSort evLE final.events := (congrArg Prod.fst hok2).symm
      rw [hevs, List.mem_insertionSort]
      obtain ⟨l1, l2, hsplit⟩ := List.append_of_mem hmem
      rw [hsplit, runPairs_append] at hrun
      rcases h1 : runPairs cm year ⟨[], []⟩ l1 with e1 | st1
      · rw [h1] at hrun
        cases hrun
      · rw [h1] at hrun
        dsimp only at hrun
        unfold runPairs at hrun
        rw [hstep st1] at hrun
        dsimp only at hrun
        obtain ⟨de, du, hev, _⟩ := runPairs_mono hrun
        rw [hev]
        dsimp only
        simp [List.mem_append]
  · rfl

/-- Witness for C1 at the spec's own example. -/
theorem C1_overnight_shift_witness :
    ({ date := "2025-04-01", start := "22:00", endv := "07:00", end_plus1 := true,
       title := "A", code := "A" } : ShiftEvent) ∈
      [({ date := "2025-04-01", start := "22:00", endv := "07:00", end_plus1 := true,
          title := "A", code := "A" } : ShiftEvent)] := by
  have h := C1_overnight_shift.1 ["4/1"] [["A"]] ["4/1"] [("A", ("22:00", "07:00+1"))] 2025
    "4/1" "A" "22:00" "07:00+1" ⟨2025, 4, 1⟩
    [{ date := "2025-04-01", start := "22:00", endv := "07:00", end_plus1 := true,
       title := "A", code := "A" }] []
    (by rfl) (by decide) (by rfl) (by rfl) (by rfl) (by rfl) (by rfl) (by rfl) (by rfl)
    (by decide)
  exact h

/-- Claim C3: a trimmed cell value that is non-empty, not a missing-value
form and absent from the CodeMapping appears in the returned UnknownCodeSet
exactly once however many days it occurs, produces no ShiftEvent, and does
not fail the build — the loop step for an unknown code succeeds, only
recording the code; and the UnknownCodeSet is returned sorted and without
duplicates. -/
theorem C3_unknown_codes :
    (∀ (cols : List String) (rows : List (List String)) (date_cols : List String)
       (cm : List (String × String × String)) (year : Nat)
       (evs : List ShiftEvent) (unk : List String) (md code : String),
       to_events cols rows date_cols cm year = .ok (evs, unk) →
       (md, code) ∈ meltPairs cols rows date_cols →
       skipForms.contains code = false →
       mlookup cm code = none →
       unk.count code = 1 ∧ (∀ ev ∈ evs, ev.code ≠ code)) ∧
    (∀ (cols : List String) (rows : List (List String)) (date_cols : List String)
       (cm : List (String × String × String)) (year : Nat)
       (evs : List ShiftEvent) (unk : List String),
       to_events cols rows date_cols cm year = .ok (evs, unk) →
       unk.Sorted (· ≤ ·) ∧ unk.Nodup) ∧
    (∀ (cm : List (String × String × String)) (year : Nat) (st : EvState) (md code : String),
       skipForms.contains code = false →
       mlookup cm code = none →
       stepPair cm year st (md, code) =
         .ok { st with unknown := insertNew st.unknown code }) := by
  refine ⟨?_, ?_, ?_⟩
  · intro cols rows date_cols cm year evs unk md code hok hmem hskip hl
    unfold to_events at hok
    rcases hrun : runPairs cm year ⟨[], []⟩ (meltPairs cols rows date_cols) with e0 | final
    · rw [hrun] at hok
      cases hok
    · rw [hrun] at hok
      injection hok with hok2
      have hevs : evs = List.insertionSort evLE final.events := (congrArg Prod.fst hok2).symm
      have hunk : unk = List.insertionSort (· ≤ ·) final.unknown :=
        (congrArg Prod.snd hok2).symm
      have hnodup : final.unknown.Nodup := runPairs_nodup hrun (by simp)
      have hmapped := runPairs_mapped hrun (by simp)
      obtain ⟨l1, l2, hsplit⟩ := List.append_of_mem hmem
      rw [hsplit, runPairs_append] at hrun
      rcases h1 : runPairs cm year ⟨[], []⟩ l1 with e1 | st1
      · rw [h1] at hrun
        cases hrun
      · rw [h1] at hrun
        dsimp only at hrun
        unfold runPairs at hrun
        have hstep : stepPair cm year st1 (md, code) =
            .ok { st1 with unknown := insertNew st1.unknown code } := by
          unfold stepPair
          dsimp only
          rw [if_neg (by rw [hskip]; simp), hl]
        rw [hstep] at hrun
        dsimp only at hrun
        obtain ⟨de, du, _, hu⟩ := runPairs_mono hrun
        have hmemu : code ∈ final.unknown := by
          rw [hu]
          dsimp only
          exact List.mem_append_left _ (mem_insertNew _ _)
        constructor
        · rw [hunk, (List.perm_insertionSort (· ≤ ·) final.unknown).count_eq]
          exact List.count_eq_one_of_mem hnodup hmemu
        · intro ev hev
          rw [hevs, List.mem_insertionSort] at hev
          obtain ⟨v, hv⟩ := hmapped ev hev
          intro hcode
          rw [hcode, hl] at hv
          cases hv
  · intro cols rows date_cols cm year evs unk hok
    unfold to_events at hok
    rcases hrun : runPairs cm year ⟨[], []⟩ (meltPairs cols rows date_cols) with e0 | final
    · rw [hrun] at hok
      cases hok
    · rw [hrun] at hok
      injection hok with hok2
      have hunk : unk = List.insertionSort (· ≤ ·) final.unknown :=
        (congrArg Prod.snd hok2).symm
      constructor
      · rw [hunk]
        exact List.sorted_insertionSort _ _
      · rw [hunk]
        exact ((List.perm_insertionSort _ _).nodup_iff).mpr (runPairs_nodup hrun (by simp))
  · intro cm year st md code hskip hl
    unfold stepPair
    dsimp only
    rw [if_neg (by rw [hskip]; simp), hl]

/-- Witness for C3: the unmapped code `"X"` occurring on two days is
reported once, sorted, with no event and no failure. -/
theorem C3_unknown_codes_witness :
    ((["X"] : List String).count "X" = 1 ∧
      (∀ ev ∈ ([] : List ShiftEvent), ev.code ≠ "X")) ∧
    ((["X"] : List String).Sorted (· ≤ ·) ∧ (["X"] : List String).Nodup) ∧
    stepPair [("A", ("09:00", "18:00"))] 2025 ⟨[], []⟩ ("4/1", "X") =
      .ok ⟨[], insertNew [] "X"⟩ := by
  refine ⟨?_, ?_, ?_⟩
  · exact C3_unknown_codes.1 ["4/1", "4/2"] [["X", "X"]] ["4/1", "4/2"]
      [("A", ("09:00", "18:00"))] 2025 [] ["X"] "4/1" "X" (by rfl) (by decide) (by rfl) (by rfl)
  · exact C3_unknown_codes.2.1 ["4/1", "4/2"] [["X", "X"]] ["4/1", "4/2"]
      [("A", ("09:00", "18:00"))] 2025 [] ["X"] (by rfl)
  · exact C3_unknown_codes.2.2 [("A", ("09:00", "18:00"))] 2025 ⟨[], []⟩ "4/1" "X"
      (by rfl) (by rfl)

end Shiftte
